import Mathlib

/-!
Verification of the fossgraph yarn-berry lockfile normalizer.

Shallow embedding of `src/fossgraph/src/dependency.rs` and
`src/fossgraph/src/dependency/normalize/yarn_berry.rs`.  Strings are
modelled as Lean `String` / `List Char`; Rust panics (`unwrap` on `None`)
are modelled by an explicit `panicked` outcome; the recursion in
`normalize_single_resolution` is modelled with explicit fuel, with a
`diverge` outcome standing for fuel exhaustion.
-/

/-- Embeds the `Error` enum of `yarn_berry.rs`. -/
inductive Error where
  | InvalidLockfileFormat (message : String)
  | UnsupportedResolution (resolution : String)
deriving DecidableEq

/-- Embeds `Error::invalid_format`. -/
def Error.invalid_format : Error :=
  .InvalidLockfileFormat "Malformed lockfile"

/-- Embeds `Error::invalid_descriptor`. -/
def Error.invalid_descriptor (descriptor : String) : Error :=
  .InvalidLockfileFormat ("Some resolution has unsupported descriptor: " ++ descriptor)

/-- Embeds the `Dependency` enum of `dependency.rs`. -/
inductive Dependency where
  | Git (url : String) (head : Option String)
  | GitHub (owner : String) (name : String) (head : Option String)
  | Npm (name : String) (version : String)
  | CocoaPods (name : String) (version : String)
  | Maven (group_id : String) (artifact_id : String) (version : String)
deriving DecidableEq

/-- Embeds the yarn-berry `PackageRange` struct.  The `bindings` hash map is
modelled as an association list with unique keys (last insertion wins). -/
structure PackageRange where
  protocol : String
  selector : String
  source : Option String
  bindings : Option (List (String × String))
deriving DecidableEq

/-- Embeds the yarn-berry `PackageDescriptor` enum. -/
inductive PackageDescriptor where
  | Regular (ident : String) (range : PackageRange)
  | Git (ident : String) (url : String) (commit_hash : String)
deriving DecidableEq

/-- Outcome of running a piece of Rust code: a value, an `Err`, a panic
(an `unwrap` of `None`), or exhaustion of the modelling fuel. -/
inductive Run (α : Type) where
  | ok (val : α)
  | err (e : Error)
  | panicked
  | diverge
deriving DecidableEq

/-- Embeds `str::strip_prefix`: strip `p` from the front of `s`. -/
def stripPfx : List Char → List Char → Option (List Char)
  | [], s => some s
  | _ :: _, [] => none
  | p :: ps, c :: cs => if p = c then stripPfx ps cs else none

/-- Boolean form of `str::starts_with`. -/
def isPfx (p s : List Char) : Bool :=
  (stripPfx p s).isSome

/-- Embeds `str::split_once`: split at the first occurrence of `sep`. -/
def splitOnceL (sep : List Char) : List Char → Option (List Char × List Char)
  | [] => if sep = [] then some ([], []) else none
  | c :: cs =>
    if isPfx sep (c :: cs) then some ([], (c :: cs).drop sep.length)
    else
      match splitOnceL sep cs with
      | some (a, b) => some (c :: a, b)
      | none => none

/-- Embeds `str::split` on a single separator character. -/
def splitAllL (sep : Char) : List Char → List (List Char)
  | [] => [[]]
  | c :: cs =>
    match splitAllL sep cs with
    | [] => [[c]]
    | h :: t => if c = sep then [] :: h :: t else (c :: h) :: t

/-- Character class `\s` of the Rust regex crate (Unicode White_Space). -/
def isRegexSpace (c : Char) : Bool :=
  [9, 10, 11, 12, 13, 32, 0x85, 0xA0, 0x1680, 0x2000, 0x2001, 0x2002, 0x2003,
    0x2004, 0x2005, 0x2006, 0x2007, 0x2008, 0x2009, 0x200A, 0x2028, 0x2029,
    0x202F, 0x205F, 0x3000].contains c.toNat

/-- Value of an ASCII hex digit byte, as used by `percent_encoding`. -/
def hexVal? (b : Nat) : Option Nat :=
  if 48 ≤ b ∧ b ≤ 57 then some (b - 48)
  else if 65 ≤ b ∧ b ≤ 70 then some (b - 55)
  else if 97 ≤ b ∧ b ≤ 102 then some (b - 87)
  else none

/-- UTF-8 encoding of one scalar value (Rust strings are UTF-8 bytes). -/
def utf8EncodeChar (c : Char) : List Nat :=
  let n := c.toNat
  if n < 0x80 then [n]
  else if n < 0x800 then [0xC0 + n / 64, 0x80 + n % 64]
  else if n < 0x10000 then
    [0xE0 + n / 4096, 0x80 + (n / 64) % 64, 0x80 + n % 64]
  else
    [0xF0 + n / 262144, 0x80 + (n / 4096) % 64, 0x80 + (n / 64) % 64,
      0x80 + n % 64]

/-- Byte sequence of a Rust `&str`. -/
def utf8Bytes (l : List Char) : List Nat :=
  (l.map utf8EncodeChar).flatten

/-- Embeds `percent_encoding::percent_decode`: decode `%XX` byte triples,
passing invalid sequences through unchanged. -/
def percentDecodeBytes : List Nat → List Nat
  | [] => []
  | 37 :: h1 :: h2 :: rest =>
    match hexVal? h1, hexVal? h2 with
    | some a, some b => (a * 16 + b) :: percentDecodeBytes rest
    | _, _ => 37 :: percentDecodeBytes (h1 :: h2 :: rest)
  | b :: rest => b :: percentDecodeBytes rest

/-- Continuation byte test for UTF-8 decoding. -/
def isCont (b : Nat) : Bool :=
  0x80 ≤ b ∧ b < 0xC0

/-- Strict UTF-8 decoding, as `Cow::decode_utf8` (rejects overlong forms,
surrogates and out-of-range scalars). -/
def utf8Decode? : List Nat → Option (List Char)
  | [] => some []
  | b :: bs =>
    if b < 0x80 then (utf8Decode? bs).map (Char.ofNat b :: ·)
    else if b < 0xC2 then none
    else if b ≤ 0xDF then
      match bs with
      | b2 :: bs2 =>
        if isCont b2 then
          (utf8Decode? bs2).map (Char.ofNat ((b - 0xC0) * 64 + (b2 - 0x80)) :: ·)
        else none
      | [] => none
    else if b ≤ 0xEF then
      match bs with
      | b2 :: b3 :: bs3 =>
        if ((if b = 0xE0 then 0xA0 else 0x80) ≤ b2
              ∧ b2 ≤ (if b = 0xED then 0x9F else 0xBF))
            ∧ isCont b3 then
          (utf8Decode? bs3).map
            (Char.ofNat ((b - 0xE0) * 4096 + (b2 - 0x80) * 64 + (b3 - 0x80)) :: ·)
        else none
      | _ => none
    else if b ≤ 0xF4 then
      match bs with
      | b2 :: b3 :: b4 :: bs4 =>
        if ((if b = 0xF0 then 0x90 else 0x80) ≤ b2
              ∧ b2 ≤ (if b = 0xF4 then 0x8F else 0xBF))
            ∧ isCont b3 ∧ isCont b4 then
          (utf8Decode? bs4).map
            (Char.ofNat ((b - 0xF0) * 262144 + (b2 - 0x80) * 4096
              + (b3 - 0x80) * 64 + (b4 - 0x80)) :: ·)
        else none
      | _ => none
    else none

/-- Lossy UTF-8 decoding, as `String::from_utf8_lossy`: each maximal invalid
subpart becomes one U+FFFD replacement character. -/
def utf8DecodeLossy : List Nat → List Char
  | [] => []
  | b :: bs =>
    if b < 0x80 then Char.ofNat b :: utf8DecodeLossy bs
    else if b < 0xC2 then Char.ofNat 0xFFFD :: utf8DecodeLossy bs
    else if b ≤ 0xDF then
      match bs with
      | b2 :: bs2 =>
        if isCont b2 then
          Char.ofNat ((b - 0xC0) * 64 + (b2 - 0x80)) :: utf8DecodeLossy bs2
        else Char.ofNat 0xFFFD :: utf8DecodeLossy (b2 :: bs2)
      | [] => [Char.ofNat 0xFFFD]
    else if b ≤ 0xEF then
      match bs with
      | b2 :: bs2 =>
        if (if b = 0xE0 then 0xA0 else 0x80) ≤ b2
            ∧ b2 ≤ (if b = 0xED then 0x9F else 0xBF) then
          match bs2 with
          | b3 :: bs3 =>
            if isCont b3 then
              Char.ofNat ((b - 0xE0) * 4096 + (b2 - 0x80) * 64 + (b3 - 0x80))
                :: utf8DecodeLossy bs3
            else Char.ofNat 0xFFFD :: utf8DecodeLossy (b3 :: bs3)
          | [] => [Char.ofNat 0xFFFD]
        else Char.ofNat 0xFFFD :: utf8DecodeLossy (b2 :: bs2)
      | [] => [Char.ofNat 0xFFFD]
    else if b ≤ 0xF4 then
      match bs with
      | b2 :: bs2 =>
        if (if b = 0xF0 then 0x90 else 0x80) ≤ b2
            ∧ b2 ≤ (if b = 0xF4 then 0x8F else 0xBF) then
          match bs2 with
          | b3 :: bs3 =>
            if isCont b3 then
              match bs3 with
              | b4 :: bs4 =>
                if isCont b4 then
                  Char.ofNat ((b - 0xF0) * 262144 + (b2 - 0x80) * 4096
                    + (b3 - 0x80) * 64 + (b4 - 0x80)) :: utf8DecodeLossy bs4
                else Char.ofNat 0xFFFD :: utf8DecodeLossy (b4 :: bs4)
              | [] => [Char.ofNat 0xFFFD]
            else Char.ofNat 0xFFFD :: utf8DecodeLossy (b3 :: bs3)
          | [] => [Char.ofNat 0xFFFD]
        else Char.ofNat 0xFFFD :: utf8DecodeLossy (b2 :: bs2)
      | [] => [Char.ofNat 0xFFFD]
    else Char.ofNat 0xFFFD :: utf8DecodeLossy bs

/-- Embeds `percent_decode_str(s).decode_utf8()`: strict percent-decoding
of a string, `none` when the decoded bytes are not valid UTF-8. -/
def percentDecodeUtf8? (s : String) : Option String :=
  (utf8Decode? (percentDecodeBytes (utf8Bytes s.data))).map (⟨·⟩)

/-- Form-urlencoded decoding of one key or value: `+` means space, then
percent-decode and read the bytes as UTF-8 lossily (the `url` crate's
`query_pairs` behaviour). -/
def formDecode (s : List Char) : String :=
  ⟨utf8DecodeLossy (percentDecodeBytes
    (utf8Bytes (s.map (fun c => if c = '+' then ' ' else c))))⟩

/-- Embeds `HashMap::from_iter` / `collect`: later pairs overwrite earlier
pairs with the same key. -/
def hashMapCollect (l : List (String × String)) : List (String × String) :=
  l.foldl (fun acc p =>
    if acc.any (fun q => q.1 = p.1) then
      acc.map (fun q => if q.1 = p.1 then p else q)
    else acc ++ [p]) []

/-- Embeds the bindings decode in `parse_range`: the bindings capture is
appended to `http://dummy?` and read back through `Url::query_pairs`.  The
`url` parser truncates at the first `#` (fragment), strips tabs and
carriage returns, and the remaining query is split on `&` into `key=value`
pairs which are form-urlencoded-decoded and collected into a hash map. -/
def decodeBindings (b : List Char) : List (String × String) :=
  let q := b.takeWhile (fun c => c ≠ '#')
  let q := q.filter (fun c => c ≠ '\t' ∧ c ≠ '\r' ∧ c ≠ '\n')
  let segs := (splitAllL '&' q).filter (fun s => s ≠ [])
  hashMapCollect (segs.map (fun seg =>
    match splitOnceL ['='] seg with
    | some (k, v) => (formDecode k, formDecode v)
    | none => (formDecode seg, "")))

/-- Protocol capture of the range regex: `[^#:\s]*:` scans greedily up to
the first `#`, `:` or whitespace, which must be a `:` (kept in the
protocol); otherwise the anchored regex cannot match. -/
def takeProtocol : List Char → Option (List Char × List Char)
  | [] => none
  | c :: cs =>
    if c = ':' then some ([':'], cs)
    else if c = '#' ∨ isRegexSpace c then none
    else
      match takeProtocol cs with
      | some (p, r) => some (c :: p, r)
      | none => none

/-- Selector capture of the range regex: `(?:(?!::)[^#\s])*` scans greedily,
stopping at `#`, whitespace, or the two-character sequence `::`. -/
def takeSelector : List Char → List Char × List Char
  | [] => ([], [])
  | c :: cs =>
    if c = '#' ∨ isRegexSpace c then ([], c :: cs)
    else if c = ':' ∧ cs.head? = some ':' then ([], c :: cs)
    else
      let (s, r) := takeSelector cs
      (c :: s, r)

/-- Source capture of the range regex: `(?:(?!::).)*` scans greedily,
stopping at `::` or a newline (`.` does not match newlines). -/
def takeSource : List Char → List Char × List Char
  | [] => ([], [])
  | c :: cs =>
    if c = '\n' then ([], c :: cs)
    else if c = ':' ∧ cs.head? = some ':' then ([], c :: cs)
    else
      let (s, r) := takeSource cs
      (c :: s, r)

/-- Embeds `PackageDescriptor::parse_range`: functional form of the anchored
regex `^(?<protocol>[^#:\s]*:)(?<selector>(?:(?!::)[^#\s])*)`
`(?:#(?<source>(?:(?!::).)*))?(?:::(?<bindings>.*))?$` followed by the
bindings decode.  The greedy captures are forced (no other backtracking
decomposition can match), so the regex is equivalent to this scan. -/
def parse_range (descriptor : String) (range : List Char) :
    Except Error PackageRange :=
  match takeProtocol range with
  | none => .error (Error.invalid_descriptor descriptor)
  | some (proto, rest) =>
    let (sel, after) := takeSelector rest
    match after with
    | [] => .ok ⟨⟨proto⟩, ⟨sel⟩, none, none⟩
    | '#' :: t =>
      let (src, after2) := takeSource t
      match after2 with
      | [] => .ok ⟨⟨proto⟩, ⟨sel⟩, some ⟨src⟩, none⟩
      | ':' :: ':' :: bnd =>
        if '\n' ∈ bnd then .error (Error.invalid_descriptor descriptor)
        else .ok ⟨⟨proto⟩, ⟨sel⟩, some ⟨src⟩, some (decodeBindings bnd)⟩
      | _ => .error (Error.invalid_descriptor descriptor)
    | ':' :: ':' :: bnd =>
      if '\n' ∈ bnd then .error (Error.invalid_descriptor descriptor)
      else .ok ⟨⟨proto⟩, ⟨sel⟩, none, some (decodeBindings bnd)⟩
    | _ => .error (Error.invalid_descriptor descriptor)

/-- Embeds `PackageDescriptor::split_range`: scoped packages (leading `@`)
split at the second `@`, others at the first `@`. -/
def split_range (descriptor : String) : Except Error (String × String) :=
  match descriptor.data with
  | '@' :: rest =>
    match splitOnceL ['@'] rest with
    | some (a, b) => .ok (⟨'@' :: a⟩, ⟨b⟩)
    | none => .error (Error.invalid_descriptor descriptor)
  | l =>
    match splitOnceL ['@'] l with
    | some (a, b) => .ok (⟨a⟩, ⟨b⟩)
    | none => .error (Error.invalid_descriptor descriptor)

/-- Embeds `PackageDescriptor::try_from(&str)`.  The `git@` branch calls
`range.split_once("/").unwrap()`, which panics (`none` here) when the
range contains no `/`. -/
def PackageDescriptor.try_from (value : String) :
    Option (Except Error PackageDescriptor) :=
  match split_range value with
  | .error e => some (.error e)
  | .ok (ident, range) =>
    if isPfx "git@".data range.data then
      match splitOnceL ['/'] range.data with
      | none => none
      | some (hostname, other) =>
        let range2 : List Char := hostname ++ ':' :: other
        match splitOnceL "#commit=".data range2 with
        | some (url, commit) => some (.ok (.Git ident ⟨url⟩ ⟨commit⟩))
        | none => some (.error (Error.invalid_descriptor value))
    else if isPfx "https://github.com/".data range.data then
      match splitOnceL "#commit=".data range.data with
      | some (url, commit) => some (.ok (.Git ident ⟨url⟩ ⟨commit⟩))
      | none => some (.error (Error.invalid_descriptor value))
    else
      match parse_range value range.data with
      | .ok r => some (.ok (.Regular ident r))
      | .error e => some (.error e)

/-- Embeds `normalize_single_resolution` with explicit fuel for the
recursive `patch:` branch; fuel exhaustion is the `diverge` outcome. -/
def normalizeFuel : Nat → String → Run Dependency
  | 0, _ => .diverge
  | fuel + 1, resolution =>
    match PackageDescriptor.try_from resolution with
    | none => .panicked
    | some (.error e) => .err e
    | some (.ok (.Git _ url commit_hash)) => .ok (.Git url (some commit_hash))
    | some (.ok (.Regular ident range)) =>
      if range.protocol = "npm:" then
        match range.bindings.bind (fun m =>
            (m.find? (fun p => p.1 = "__archiveUrl")).map (·.2)) with
        | none => .ok (.Npm ident range.selector)
        | some _ => .err (.UnsupportedResolution resolution)
      else if range.protocol = "patch:" then
        match percentDecodeUtf8? range.protocol with
        | some nested_descriptor => normalizeFuel fuel nested_descriptor
        | none => .err Error.invalid_format
      else .err (.UnsupportedResolution resolution)

/-- The `normalize_single_resolution` entry point.  Fuel 2 is exact: the
only recursive call is on the percent-decode of the literal protocol
`patch:`, which is `patch:` itself and fails to parse without recursing
(see the fuel-stability lemmas below). -/
def normalize_single_resolution (resolution : String) : Run Dependency :=
  normalizeFuel 2 resolution

/-- Model of `serde_yaml::Value` as far as the walker observes it: strings,
mappings in document order, and everything else collapsed to `other`. -/
inductive Yaml where
  | str (s : String)
  | map (entries : List (Yaml × Yaml))
  | other

/-- Embeds `Mapping::get` with a string key (`serde_yaml` compares the key
`Value`s; a string key only equals a string entry key). -/
def yamlGetStr (entries : List (Yaml × Yaml)) (k : String) : Option Yaml :=
  (entries.find? (fun p =>
    match p.1 with
    | .str s => s = k
    | _ => false)).map (·.2)

/-- Embeds the per-entry extraction in `normalize_yaml`:
`value.as_mapping().and_then(get "resolution").and_then(as_str)`. -/
def getResolution (v : Yaml) : Option String :=
  match v with
  | .map m =>
    match yamlGetStr m "resolution" with
    | some (.str s) => some s
    | _ => none
  | _ => none

/-- Embeds `HashSet::insert` on the accumulated dependency set. -/
def insertDep (acc : List Dependency) (d : Dependency) : List Dependency :=
  if d ∈ acc then acc else acc ++ [d]

/-- Embeds the entry loop of `normalize_yaml`: missing or non-string
`resolution` aborts with `invalid_format`; `UnsupportedResolution` drops
the entry; any other error aborts; panics propagate. -/
def walkEntries : List (Yaml × Yaml) → List Dependency → Run (List Dependency)
  | [], acc => .ok acc
  | (_, v) :: rest, acc =>
    match getResolution v with
    | none => .err Error.invalid_format
    | some resolution =>
      match normalize_single_resolution resolution with
      | .ok d => walkEntries rest (insertDep acc d)
      | .err (.UnsupportedResolution _) => walkEntries rest acc
      | .err (.InvalidLockfileFormat m) => .err (.InvalidLockfileFormat m)
      | .panicked => .panicked
      | .diverge => .diverge

/-- Embeds `normalize_yaml`: non-mappings fail with `invalid_format`; the
first entry is skipped via `iter.next().unwrap()`, which panics on an
empty mapping. -/
def normalize_yaml (v : Yaml) : Run (List Dependency) :=
  match v with
  | .map entries =>
    match entries with
    | [] => .panicked
    | _ :: rest => walkEntries rest []
  | _ => .err Error.invalid_format

/-- Embeds `Dependency::canonicalize` of `dependency.rs`.  Both
`split_once` results are unwrapped, so a `git@github.com:` URL without a
`/` or without `.git` panics (`none` here). -/
def canonicalize (d : Dependency) : Option Dependency :=
  match d with
  | .Git url head =>
    match stripPfx "git@github.com:".data url.data with
    | some substr =>
      match splitOnceL ['/'] substr with
      | some (owner, substr2) =>
        match splitOnceL ".git".data substr2 with
        | some (name, _) => some (.GitHub ⟨owner⟩ ⟨name⟩ head)
        | none => none
      | none => none
    | none => some d
  | _ => some d

/-! ## Helper lemmas -/

theorem stripPfx_append (p s : List Char) : stripPfx p (p ++ s) = some s := by
  induction p with
  | nil => rfl
  | cons c cs ih => simp [stripPfx, ih]

theorem isPfx_append_self (l b : List Char) : isPfx l (l ++ b) = true := by
  rw [isPfx, stripPfx_append]
  rfl

theorem isPfx_cons_of_ne (hd c : Char) (tl cs : List Char) (hc : hd ≠ c) :
    isPfx (hd :: tl) (c :: cs) = false := by
  simp [isPfx, stripPfx, hc]

theorem splitOnceL_first (hd : Char) (tl a b : List Char) (ha : hd ∉ a) :
    splitOnceL (hd :: tl) (a ++ hd :: (tl ++ b)) = some (a, b) := by
  induction a with
  | nil =>
    rw [List.nil_append, splitOnceL]
    rw [if_pos]
    · simp
    · exact isPfx_append_self (hd :: tl) b
  | cons c a ih =>
    have hc : hd ≠ c := fun h => ha (h ▸ List.mem_cons_self c a)
    have ha' : hd ∉ a := fun h => ha (List.mem_cons_of_mem c h)
    rw [List.cons_append, splitOnceL,
      if_neg (by simp [isPfx_cons_of_ne hd c _ _ hc]), ih ha']

theorem splitOnceL_none (hd : Char) (tl l : List Char) (hl : hd ∉ l) :
    splitOnceL (hd :: tl) l = none := by
  induction l with
  | nil => rfl
  | cons c cs ih =>
    have hc : hd ≠ c := fun h => hl (h ▸ List.mem_cons_self c cs)
    have hl' : hd ∉ cs := fun h => hl (List.mem_cons_of_mem c h)
    rw [splitOnceL,
      if_neg (by simp [isPfx_cons_of_ne hd c _ _ hc]), ih hl']

/-- Unfolding equation of `normalizeFuel` at positive fuel. -/
theorem normalizeFuel_succ (fuel : Nat) (resolution : String) :
    normalizeFuel (fuel + 1) resolution =
      match PackageDescriptor.try_from resolution with
      | none => .panicked
      | some (.error e) => .err e
      | some (.ok (.Git _ url commit_hash)) => .ok (.Git url (some commit_hash))
      | some (.ok (.Regular ident range)) =>
        if range.protocol = "npm:" then
          match range.bindings.bind (fun m =>
              (m.find? (fun p => p.1 = "__archiveUrl")).map (·.2)) with
          | none => .ok (.Npm ident range.selector)
          | some _ => .err (.UnsupportedResolution resolution)
        else if range.protocol = "patch:" then
          match percentDecodeUtf8? range.protocol with
          | some nested_descriptor => normalizeFuel fuel nested_descriptor
          | none => .err Error.invalid_format
        else .err (.UnsupportedResolution resolution) := rfl

/-- Percent-decoding the literal protocol `patch:` is the identity. -/
theorem percentDecodeUtf8_patch : percentDecodeUtf8? "patch:" = some "patch:" := rfl

/-- The inner recursive call of the `patch:` branch is always on the string
`patch:`, which fails `split_range` immediately, at any positive fuel. -/
theorem normalizeFuel_patch_literal (fuel : Nat) :
    normalizeFuel (fuel + 1) "patch:" = .err (Error.invalid_descriptor "patch:") := rfl

/-- Fuel 2 is exact: more fuel never changes the result. -/
theorem normalizeFuel_stable (fuel : Nat) (s : String) :
    normalizeFuel (fuel + 2) s = normalizeFuel 2 s := by
  show normalizeFuel (fuel + 1 + 1) s = normalizeFuel (1 + 1) s
  rw [normalizeFuel_succ (fuel + 1) s, normalizeFuel_succ 1 s]
  cases h : PackageDescriptor.try_from s with
  | none => rfl
  | some x =>
    cases x with
    | error e => rfl
    | ok d =>
      cases d with
      | Git i u c => rfl
      | Regular ident range =>
        by_cases h1 : range.protocol = "npm:"
        · simp only [h1, if_pos]
        · by_cases h2 : range.protocol = "patch:"
          · have hne : ¬ ("patch:" : String) = "npm:" := by decide
            simp only [h1, h2, ite_true, ite_false]
            rw [if_neg hne, if_neg hne, percentDecodeUtf8_patch]
            exact (normalizeFuel_patch_literal fuel).trans
              (normalizeFuel_patch_literal 0).symm
          · simp only [h1, h2, ite_false]

/-- At fuel 2 the normalizer never exhausts its fuel: the Rust recursion
terminates on every input, with recursion depth at most one. -/
theorem normalizeFuel_two_ne_diverge (s : String) :
    normalizeFuel 2 s ≠ .diverge := by
  show normalizeFuel (1 + 1) s ≠ .diverge
  rw [normalizeFuel_succ 1 s]
  cases h : PackageDescriptor.try_from s with
  | none => simp
  | some x =>
    cases x with
    | error e => simp
    | ok d =>
      cases d with
      | Git i u c => simp
      | Regular ident range =>
        by_cases h1 : range.protocol = "npm:"
        · simp only [h1, if_pos]
          cases range.bindings.bind (fun m =>
              (m.find? (fun p => p.1 = "__archiveUrl")).map (·.2)) <;> simp
        · by_cases h2 : range.protocol = "patch:"
          · have hne : ¬ ("patch:" : String) = "npm:" := by decide
            simp only [h1, h2, ite_true, ite_false]
            rw [if_neg hne, percentDecodeUtf8_patch]
            have hlit : normalizeFuel 1 "patch:"
                = .err (Error.invalid_descriptor "patch:") :=
              normalizeFuel_patch_literal 0
            show normalizeFuel 1 "patch:" ≠ .diverge
            rw [hlit]
            simp
          · simp [h1, h2]

/-- A successful `normalize_single_resolution` only ever builds `Npm`
values or `Git` values with a `Some` head. -/
theorem normalizeFuel_ok_shape (fuel : Nat) :
    ∀ (s : String) (d : Dependency), normalizeFuel fuel s = .ok d →
    (∃ n v, d = .Npm n v) ∨ (∃ u hd, d = .Git u (some hd)) := by
  induction fuel with
  | zero => intro s d h; exact absurd h (by simp [normalizeFuel])
  | succ fuel ih =>
    intro s d h
    rw [normalizeFuel_succ] at h
    split at h
    · exact absurd h (by simp)
    · exact absurd h (by simp)
    · cases h; exact Or.inr ⟨_, _, rfl⟩
    · split at h
      · split at h
        · cases h; exact Or.inl ⟨_, _, rfl⟩
        · exact absurd h (by simp)
      · split at h
        · split at h
          · exact ih _ _ h
          · exact absurd h (by simp)
        · exact absurd h (by simp)

theorem mem_insertDep (acc : List Dependency) (d x : Dependency)
    (h : x ∈ insertDep acc d) : x ∈ acc ∨ x = d := by
  unfold insertDep at h
  split at h
  · exact Or.inl h
  · rcases List.mem_append.mp h with h' | h'
    · exact Or.inl h'
    · exact Or.inr (List.mem_singleton.mp h')

theorem walkEntries_ok_shape (entries : List (Yaml × Yaml)) :
    ∀ (acc ds : List Dependency),
    (∀ d ∈ acc, (∃ n v, d = .Npm n v) ∨ (∃ u hd, d = .Git u (some hd))) →
    walkEntries entries acc = .ok ds →
    ∀ d ∈ ds, (∃ n v, d = .Npm n v) ∨ (∃ u hd, d = .Git u (some hd)) := by
  induction entries with
  | nil =>
    intro acc ds hacc h
    cases h
    exact hacc
  | cons e rest ih =>
    obtain ⟨k, v⟩ := e
    intro acc ds hacc h
    simp only [walkEntries] at h
    split at h
    · exact absurd h (by simp)
    · split at h
      · rename_i d' hd'
        refine ih _ _ ?_ h
        intro x hx
        rcases mem_insertDep _ _ _ hx with h' | h'
        · exact hacc x h'
        · exact h' ▸ normalizeFuel_ok_shape 2 _ _ hd'
      · exact ih _ _ hacc h
      · exact absurd h (by simp)
      · exact absurd h (by simp)
      · exact absurd h (by simp)

/-- The walker can only finish with a full set, an
`InvalidLockfileFormat` error, or a panic. -/
theorem walkEntries_outcomes (entries : List (Yaml × Yaml)) :
    ∀ acc : List Dependency,
    (∃ ds, walkEntries entries acc = .ok ds)
    ∨ (∃ m, walkEntries entries acc = .err (.InvalidLockfileFormat m))
    ∨ walkEntries entries acc = .panicked := by
  induction entries with
  | nil => intro acc; exact Or.inl ⟨acc, rfl⟩
  | cons e rest ih =>
    obtain ⟨k, v⟩ := e
    intro acc
    simp only [walkEntries]
    split
    · exact Or.inr (Or.inl ⟨"Malformed lockfile", rfl⟩)
    · split
      · exact ih _
      · exact ih _
      · rename_i m _
        exact Or.inr (Or.inl ⟨m, rfl⟩)
      · exact Or.inr (Or.inr rfl)
      · rename_i hdiv
        exact absurd hdiv (normalizeFuel_two_ne_diverge _)

/-- Characterisation of the protocol capture: whatever `takeProtocol`
accepts is a possibly-empty run of non-`#`, non-`:`, non-whitespace
characters followed by the retained `:`. -/
theorem takeProtocol_some (l : List Char) :
    ∀ (p r : List Char), takeProtocol l = some (p, r) →
    ∃ pre, p = pre ++ [':'] ∧ l = pre ++ ':' :: r
      ∧ ∀ c ∈ pre, c ≠ '#' ∧ c ≠ ':' ∧ isRegexSpace c = false := by
  induction l with
  | nil => intro p r h; exact absurd h (by simp [takeProtocol])
  | cons c cs ih =>
    intro p r h
    simp only [takeProtocol] at h
    split at h
    · rename_i hc
      cases h
      exact ⟨[], by simp [hc], by simp [hc], by simp⟩
    · rename_i hc
      split at h
      · exact absurd h (by simp)
      · rename_i hs
        split at h
        · rename_i o p' r' htp
          cases h
          obtain ⟨pre, hp1, hp2, hp3⟩ := ih p' r htp
          refine ⟨c :: pre, by rw [hp1]; rfl, by rw [hp2]; rfl, ?_⟩
          intro x hx
          rcases List.mem_cons.mp hx with rfl | hx'
          · refine ⟨fun he => hs (Or.inl he), hc, ?_⟩
            cases hb : isRegexSpace x
            · rfl
            · exact absurd (Or.inr hb) hs
          · exact hp3 x hx'
        · exact absurd h (by simp)

/-- Dispatch of `normalize_single_resolution` on a `Regular` descriptor. -/
theorem normalizeFuel_regular (fuel : Nat) (s ident : String)
    (range : PackageRange)
    (hp : PackageDescriptor.try_from s = some (.ok (.Regular ident range))) :
    normalizeFuel (fuel + 1) s =
      if range.protocol = "npm:" then
        match range.bindings.bind (fun m =>
            (m.find? (fun p => p.1 = "__archiveUrl")).map (·.2)) with
        | none => .ok (.Npm ident range.selector)
        | some _ => .err (.UnsupportedResolution s)
      else if range.protocol = "patch:" then
        match percentDecodeUtf8? range.protocol with
        | some nested_descriptor => normalizeFuel fuel nested_descriptor
        | none => .err Error.invalid_format
      else .err (.UnsupportedResolution s) := by
  rw [normalizeFuel_succ, hp]

/-! ## Claims -/

/-- Claim C2 (code bug): the walker is claimed total — a set or an
`InvalidLockfileFormat` error — for every mapping document including the
empty one, but `iter.next().unwrap()` panics on the empty mapping; a
document with only the metadata entry does return the empty set. -/
theorem C2_walker_panics_on_empty :
    normalize_yaml (Yaml.map []) = .panicked
    ∧ normalize_yaml (Yaml.map [(.str "__metadata", .other)]) = .ok [] :=
  ⟨rfl, rfl⟩

/-- Claim C4: for a `Regular` descriptor with protocol exactly `npm:`,
normalization fails with `UnsupportedResolution` carrying the original
resolution string exactly when the bindings contain `__archiveUrl`, and
otherwise yields `Npm` with the ident and the range selector. -/
theorem C4_npm_archive_url (s ident : String) (range : PackageRange)
    (hp : PackageDescriptor.try_from s = some (.ok (.Regular ident range)))
    (hproto : range.protocol = "npm:") :
    (normalize_single_resolution s = .err (.UnsupportedResolution s) ↔
      (range.bindings.bind (fun m =>
        (m.find? (fun p => p.1 = "__archiveUrl")).map (·.2))).isSome = true)
    ∧ ((range.bindings.bind (fun m =>
        (m.find? (fun p => p.1 = "__archiveUrl")).map (·.2))) = none →
      normalize_single_resolution s = .ok (.Npm ident range.selector)) := by
  cases harch : range.bindings.bind (fun m =>
      (m.find? (fun p => p.1 = "__archiveUrl")).map (·.2)) with
  | none =>
    have he : normalize_single_resolution s = .ok (.Npm ident range.selector) := by
      show normalizeFuel (1 + 1) s = _
      rw [normalizeFuel_regular 1 s ident range hp, if_pos hproto, harch]
    refine ⟨?_, fun _ => he⟩
    rw [he]
    simp
  | some a =>
    have he : normalize_single_resolution s = .err (.UnsupportedResolution s) := by
      show normalizeFuel (1 + 1) s = _
      rw [normalizeFuel_regular 1 s ident range hp, if_pos hproto, harch]
    refine ⟨?_, fun hnone => absurd hnone (by simp)⟩
    rw [he]
    simp

theorem C4_witness :
    normalize_single_resolution
        "pkg@npm:1.0.0::__archiveUrl=https%3A%2F%2Fexample.com%2Fa.tgz"
      = .err (.UnsupportedResolution
        "pkg@npm:1.0.0::__archiveUrl=https%3A%2F%2Fexample.com%2Fa.tgz")
    ∧ normalize_single_resolution "lodash@npm:4.17.21"
      = .ok (.Npm "lodash" "4.17.21") :=
  ⟨((C4_npm_archive_url
      "pkg@npm:1.0.0::__archiveUrl=https%3A%2F%2Fexample.com%2Fa.tgz" "pkg"
      ⟨"npm:", "1.0.0", none,
        some [("__archiveUrl", "https://example.com/a.tgz")]⟩
      rfl rfl).1).mpr rfl,
   (C4_npm_archive_url "lodash@npm:4.17.21" "lodash"
      ⟨"npm:", "4.17.21", none, none⟩ rfl rfl).2 rfl⟩

/-- Claim C6: for a `Regular` descriptor with protocol exactly `patch:`,
the normalizer percent-decodes the protocol field (not the selector) —
which is always the literal `patch:` — and recurses on the decoded
string; a decode that is not valid UTF-8 would yield the format error. -/
theorem C6_patch_decodes_protocol (fuel : Nat) (s ident : String)
    (range : PackageRange)
    (hp : PackageDescriptor.try_from s = some (.ok (.Regular ident range)))
    (hproto : range.protocol = "patch:") :
    percentDecodeUtf8? range.protocol = some "patch:"
    ∧ normalizeFuel (fuel + 1) s = normalizeFuel fuel "patch:"
    ∧ (percentDecodeUtf8? range.protocol = none →
        normalizeFuel (fuel + 1) s = .err Error.invalid_format) := by
  have hdec : percentDecodeUtf8? range.protocol = some "patch:" := by
    rw [hproto]
    exact percentDecodeUtf8_patch
  have hne : ¬ ("patch:" : String) = "npm:" := by decide
  refine ⟨hdec, ?_, ?_⟩
  · rw [normalizeFuel_regular fuel s ident range hp, hproto, if_neg hne,
      if_pos rfl, percentDecodeUtf8_patch]
  · intro hcontra
    rw [hdec] at hcontra
    exact absurd hcontra (by simp)

theorem C6_witness :
    percentDecodeUtf8? "patch:" = some "patch:"
    ∧ normalizeFuel 2 "x@patch:1.2.3" = normalizeFuel 1 "patch:" :=
  ⟨(C6_patch_decodes_protocol 1 "x@patch:1.2.3" "x"
      ⟨"patch:", "1.2.3", none, none⟩ rfl rfl).1,
   (C6_patch_decodes_protocol 1 "x@patch:1.2.3" "x"
      ⟨"patch:", "1.2.3", none, none⟩ rfl rfl).2.1⟩

/-- Claim C7: `normalize_single_resolution` terminates on every input —
fuel 2 is exact and is never exhausted, since the only recursive call is
on the decoded protocol `patch:`, which itself fails `split_range` with
the invalid-descriptor error rather than recursing further. -/
theorem C7_termination (s : String) (fuel : Nat) (hf : 2 ≤ fuel) :
    normalizeFuel fuel s = normalizeFuel 2 s
    ∧ normalizeFuel 2 s ≠ .diverge
    ∧ (∀ ident range,
        PackageDescriptor.try_from s = some (.ok (.Regular ident range)) →
        range.protocol = "patch:" →
        normalizeFuel 2 s = .err (Error.invalid_descriptor "patch:")) := by
  obtain ⟨m, rfl⟩ : ∃ m, fuel = m + 2 := ⟨fuel - 2, by omega⟩
  refine ⟨normalizeFuel_stable m s, normalizeFuel_two_ne_diverge s, ?_⟩
  intro ident range hp hproto
  have hne : ¬ ("patch:" : String) = "npm:" := by decide
  show normalizeFuel (1 + 1) s = _
  rw [normalizeFuel_regular 1 s ident range hp, hproto, if_neg hne,
    if_pos rfl, percentDecodeUtf8_patch]
  exact normalizeFuel_patch_literal 0

theorem C7_witness :
    normalizeFuel 5 "x@patch:9.9.9" = normalizeFuel 2 "x@patch:9.9.9"
    ∧ normalizeFuel 2 "x@patch:9.9.9" ≠ .diverge :=
  ⟨(C7_termination "x@patch:9.9.9" 5 (by omega)).1,
   (C7_termination "x@patch:9.9.9" 5 (by omega)).2.1⟩

/-- Claim C9: every dependency in a successful `normalize_yaml` result is
an `Npm` value or a `Git` value with `head = some hash`; `GitHub`,
`CocoaPods` and `Maven` never appear and no `Git` has `head = none`. -/
theorem C9_output_shape (v : Yaml) (ds : List Dependency) (d : Dependency)
    (hok : normalize_yaml v = .ok ds) (hmem : d ∈ ds) :
    (∃ n ver, d = .Npm n ver) ∨ (∃ u hd, d = .Git u (some hd)) := by
  cases v with
  | str s => exact absurd hok (by simp [normalize_yaml])
  | other => exact absurd hok (by simp [normalize_yaml])
  | map entries =>
    cases entries with
    | nil => exact absurd hok (by simp [normalize_yaml])
    | cons e rest =>
      exact walkEntries_ok_shape rest [] ds (by simp) hok d hmem

theorem C9_witness :
    (∃ n ver, Dependency.Npm "lodash" "4.17.21" = .Npm n ver)
    ∨ (∃ u hd, Dependency.Npm "lodash" "4.17.21" = .Git u (some hd)) :=
  C9_output_shape
    (Yaml.map [(.str "__metadata", .other),
      (.str "e", .map [(.str "resolution", .str "lodash@npm:4.17.21")])])
    [.Npm "lodash" "4.17.21"] (.Npm "lodash" "4.17.21") rfl
    (List.mem_singleton.mpr rfl)

/-- Claim C1 counterexample: the colon-form resolution is NOT left intact —
the rewrite replaces the first `/` anywhere in the range, so the
owner/repo separator becomes `:` and the resulting identity differs from
the one the claim states. -/
theorem C1_cex :
    normalize_single_resolution
        "pkg@git@github.com:owner/repo.git#commit=deadbeef"
      = .ok (.Git "git@github.com:owner:repo.git" (some "deadbeef"))
    ∧ Dependency.Git "git@github.com:owner:repo.git" (some "deadbeef")
      ≠ .Git "git@github.com:owner/repo.git" (some "deadbeef") :=
  ⟨rfl, by decide⟩

/-- Claim C3 counterexample: a `Git` url that starts with
`git@github.com:` but has no `/` makes `canonicalize` panic instead of
returning the value unchanged, and a url with trailing garbage after
`.git` is converted rather than passed through. -/
theorem C3_cex :
    canonicalize (.Git "git@github.com:x" none) = none
    ∧ canonicalize (.Git "git@github.com:o/n.gitXYZ" none)
      = some (.GitHub "o" "n" none) :=
  ⟨rfl, rfl⟩

/-- Claim C5 counterexample: a document whose entry resolution has a
`git@` range without `/` makes the walk panic, so the caller receives
neither a dependency set nor an error. -/
theorem C5_cex :
    ¬ (∃ ds, normalize_yaml (Yaml.map [(.str "__metadata", .other),
        (.str "entry", .map [(.str "resolution", .str "a@git@b")])])
        = .ok ds)
    ∧ ¬ (∃ e, normalize_yaml (Yaml.map [(.str "__metadata", .other),
        (.str "entry", .map [(.str "resolution", .str "a@git@b")])])
        = .err e) := by
  have h : normalize_yaml (Yaml.map [(.str "__metadata", .other),
      (.str "entry", .map [(.str "resolution", .str "a@git@b")])])
      = .panicked := rfl
  constructor
  · rintro ⟨ds, hds⟩
    rw [h] at hds
    exact Run.noConfusion hds
  · rintro ⟨e, he⟩
    rw [h] at he
    exact Run.noConfusion he

/-- Claim C5 amended: an entry whose resolution is `UnsupportedResolution`
is dropped and the walk continues; an `InvalidLockfileFormat` result
aborts the whole walk with exactly that error; and every document whose
walk does not hit one of the two panic sites (the empty-mapping unwrap
and the `git@`-range-without-`/` unwrap) ends in a complete set or a
single `InvalidLockfileFormat` error — never a partial set and never a
top-level `UnsupportedResolution`. -/
theorem C5_amended :
    (∀ (k v : Yaml) (rest : List (Yaml × Yaml)) (acc : List Dependency)
        (res r : String),
      getResolution v = some res →
      normalize_single_resolution res = .err (.UnsupportedResolution r) →
      walkEntries ((k, v) :: rest) acc = walkEntries rest acc)
    ∧ (∀ (k v : Yaml) (rest : List (Yaml × Yaml)) (acc : List Dependency)
        (res m : String),
      getResolution v = some res →
      normalize_single_resolution res = .err (.InvalidLockfileFormat m) →
      walkEntries ((k, v) :: rest) acc = .err (.InvalidLockfileFormat m))
    ∧ (∀ doc : Yaml, normalize_yaml doc ≠ .panicked →
      (∃ ds, normalize_yaml doc = .ok ds)
      ∨ (∃ m, normalize_yaml doc = .err (.InvalidLockfileFormat m))) := by
  refine ⟨?_, ?_, ?_⟩
  · intro k v rest acc res r hres hn
    simp only [walkEntries, hres, hn]
  · intro k v rest acc res m hres hn
    simp only [walkEntries, hres, hn]
  · intro doc hnp
    cases doc with
    | str s => exact Or.inr ⟨"Malformed lockfile", rfl⟩
    | other => exact Or.inr ⟨"Malformed lockfile", rfl⟩
    | map entries =>
      cases entries with
      | nil => exact absurd rfl hnp
      | cons e rest =>
        rcases walkEntries_outcomes rest [] with h | h | h
        · exact Or.inl h
        · exact Or.inr h
        · exact absurd h hnp

theorem C5_witness :
    (∃ ds, normalize_yaml (Yaml.map [(.str "__metadata", .other),
        (.str "e", .map [(.str "resolution", .str "pkg@unknown:1.0.0")])])
        = .ok ds)
    ∨ (∃ m, normalize_yaml (Yaml.map [(.str "__metadata", .other),
        (.str "e", .map [(.str "resolution", .str "pkg@unknown:1.0.0")])])
        = .err (.InvalidLockfileFormat m)) :=
  C5_amended.2.2 _ (by decide)

/-- Claim C8 counterexample: a range beginning with `:` is accepted, not
rejected — the regex protocol class is starred, so the stored protocol is
the bare `:` with zero preceding characters. -/
theorem C8_cex :
    PackageDescriptor.try_from "pkg@:1.0.0"
      = some (.ok (.Regular "pkg" ⟨":", "1.0.0", none, none⟩)) :=
  rfl

/-- Claim C8 amended: the stored protocol is ZERO or more characters
excluding `#`, `:` and whitespace, followed by the literal `:`; an empty
protocol part is accepted rather than failing. -/
theorem C8_amended (d : String) (r : List Char) (pr : PackageRange)
    (h : parse_range d r = .ok pr) :
    ∃ pre, pr.protocol.data = pre ++ [':']
      ∧ ∀ c ∈ pre, c ≠ '#' ∧ c ≠ ':' ∧ isRegexSpace c = false := by
  unfold parse_range at h
  cases htp : takeProtocol r with
  | none => rw [htp] at h; exact absurd h (by simp)
  | some pres =>
    obtain ⟨proto, rest⟩ := pres
    rw [htp] at h
    obtain ⟨pre, hp1, _, hp3⟩ := takeProtocol_some r proto rest htp
    have hpd : pr.protocol.data = proto := by
      split at h
      all_goals try split at h
      all_goals try split at h
      all_goals try split at h
      all_goals try split at h
      all_goals try split at h
      all_goals (cases h <;> simp_all)
    exact ⟨pre, by rw [hpd, hp1], hp3⟩

theorem C8_witness :
    ∃ pre, (PackageRange.mk "npm:" "4.17.21" none none).protocol.data
        = pre ++ [':']
      ∧ ∀ c ∈ pre, c ≠ '#' ∧ c ≠ ':' ∧ isRegexSpace c = false :=
  C8_amended "lodash@npm:4.17.21" "npm:4.17.21".data
    ⟨"npm:", "4.17.21", none, none⟩ rfl

/-- Claim C10 counterexample: two resolutions whose parsed ranges differ
only in the source field do NOT always normalize identically — the
`UnsupportedResolution` error carries the original resolution string. -/
theorem C10_cex :
    PackageDescriptor.try_from "pkg@foo:1.0.0#src1"
      = some (.ok (.Regular "pkg" ⟨"foo:", "1.0.0", some "src1", none⟩))
    ∧ PackageDescriptor.try_from "pkg@foo:1.0.0#src2"
      = some (.ok (.Regular "pkg" ⟨"foo:", "1.0.0", some "src2", none⟩))
    ∧ normalize_single_resolution "pkg@foo:1.0.0#src1"
      ≠ normalize_single_resolution "pkg@foo:1.0.0#src2" :=
  ⟨rfl, rfl, by decide⟩

/-- Claim C10 amended: for two `Regular` descriptors agreeing on ident,
protocol, selector and bindings, normalization agrees exactly — except
that when the outcome is `UnsupportedResolution`, each error carries its
own original resolution string. -/
theorem C10_amended (s1 s2 ident : String) (r1 r2 : PackageRange)
    (h1 : PackageDescriptor.try_from s1 = some (.ok (.Regular ident r1)))
    (h2 : PackageDescriptor.try_from s2 = some (.ok (.Regular ident r2)))
    (hp : r1.protocol = r2.protocol) (hs : r1.selector = r2.selector)
    (hb : r1.bindings = r2.bindings) :
    normalize_single_resolution s1 = normalize_single_resolution s2
    ∨ (normalize_single_resolution s1 = .err (.UnsupportedResolution s1)
      ∧ normalize_single_resolution s2 = .err (.UnsupportedResolution s2)) := by
  by_cases hn : r1.protocol = "npm:"
  · cases harch : r1.bindings.bind (fun m =>
        (m.find? (fun p => p.1 = "__archiveUrl")).map (·.2)) with
    | none =>
      left
      have q1 : normalize_single_resolution s1 = .ok (.Npm ident r1.selector) := by
        show normalizeFuel (1 + 1) s1 = _
        rw [normalizeFuel_regular 1 s1 ident r1 h1, if_pos hn, harch]
      have harch2 : r2.bindings.bind (fun m =>
          (m.find? (fun p => p.1 = "__archiveUrl")).map (·.2)) = none :=
        hb ▸ harch
      have q2 : normalize_single_resolution s2 = .ok (.Npm ident r2.selector) := by
        show normalizeFuel (1 + 1) s2 = _
        rw [normalizeFuel_regular 1 s2 ident r2 h2,
          if_pos (hp.symm.trans hn), harch2]
      rw [q1, q2, hs]
    | some a =>
      right
      constructor
      · show normalizeFuel (1 + 1) s1 = _
        rw [normalizeFuel_regular 1 s1 ident r1 h1, if_pos hn, harch]
      · have harch2 : r2.bindings.bind (fun m =>
            (m.find? (fun p => p.1 = "__archiveUrl")).map (·.2)) = some a :=
          hb ▸ harch
        show normalizeFuel (1 + 1) s2 = _
        rw [normalizeFuel_regular 1 s2 ident r2 h2,
          if_pos (hp.symm.trans hn), harch2]
  · by_cases hpa : r1.protocol = "patch:"
    · left
      have hne : ¬ ("patch:" : String) = "npm:" := by decide
      have q1 : normalize_single_resolution s1
          = .err (Error.invalid_descriptor "patch:") := by
        show normalizeFuel (1 + 1) s1 = _
        rw [normalizeFuel_regular 1 s1 ident r1 h1, hpa, if_neg hne,
          if_pos rfl, percentDecodeUtf8_patch]
        exact normalizeFuel_patch_literal 0
      have q2 : normalize_single_resolution s2
          = .err (Error.invalid_descriptor "patch:") := by
        show normalizeFuel (1 + 1) s2 = _
        rw [normalizeFuel_regular 1 s2 ident r2 h2, hp.symm.trans hpa,
          if_neg hne, if_pos rfl, percentDecodeUtf8_patch]
        exact normalizeFuel_patch_literal 0
      rw [q1, q2]
    · right
      constructor
      · show normalizeFuel (1 + 1) s1 = _
        rw [normalizeFuel_regular 1 s1 ident r1 h1, if_neg hn, if_neg hpa]
      · show normalizeFuel (1 + 1) s2 = _
        rw [normalizeFuel_regular 1 s2 ident r2 h2,
          if_neg (fun hcon => hn (hp.trans hcon)),
          if_neg (fun hcon => hpa (hp.trans hcon))]

theorem C10_witness :
    normalize_single_resolution "pkg@bar:2.0.0#srcA"
      = normalize_single_resolution "pkg@bar:2.0.0#srcB"
    ∨ (normalize_single_resolution "pkg@bar:2.0.0#srcA"
        = .err (.UnsupportedResolution "pkg@bar:2.0.0#srcA")
      ∧ normalize_single_resolution "pkg@bar:2.0.0#srcB"
        = .err (.UnsupportedResolution "pkg@bar:2.0.0#srcB")) :=
  C10_amended "pkg@bar:2.0.0#srcA" "pkg@bar:2.0.0#srcB" "pkg"
    ⟨"bar:", "2.0.0", some "srcA", none⟩
    ⟨"bar:", "2.0.0", some "srcB", none⟩
    rfl rfl rfl rfl rfl

theorem strData_append (a b : String) : (a ++ b).data = a.data ++ b.data := rfl

theorem not_mem_append_chars (c : Char) (l1 l2 : List Char)
    (h1 : c ∉ l1) (h2 : c ∉ l2) : c ∉ l1 ++ l2 := by
  intro h
  rcases List.mem_append.mp h with h | h
  exacts [h1 h, h2 h]

theorem not_mem_cons_chars (c d : Char) (l : List Char)
    (h1 : c ≠ d) (h2 : c ∉ l) : c ∉ d :: l := by
  intro h
  rcases List.mem_cons.mp h with h | h
  exacts [h1 h, h2 h]

/-- Unfolding equation of `canonicalize` on the `Git` variant. -/
theorem canonicalize_git_eq (url : String) (head : Option String) :
    canonicalize (.Git url head) =
      match stripPfx "git@github.com:".data url.data with
      | some substr =>
        match splitOnceL ['/'] substr with
        | some (owner, substr2) =>
          match splitOnceL ".git".data substr2 with
          | some (name, _) => some (.GitHub ⟨owner⟩ ⟨name⟩ head)
          | none => none
        | none => none
      | none => some (.Git url head) := rfl

/-- Claim C3 amended: `canonicalize` keys only on the `git@github.com:` url
prefix.  When the prefix matches and the remainder has a `/` and a `.git`,
the value becomes `GitHub` (owner up to the first `/`, name up to the
first `.git`, head preserved) — even when the url does not exactly match
the full shorthand; when the prefix matches but `/` or `.git` is missing,
`canonicalize` panics instead of passing the value through; values
without the prefix, and all non-`Git` variants, pass through unchanged. -/
theorem C3_amended :
    (∀ (owner rest : String) (head : Option String) (name r2 : List Char),
      '/' ∉ owner.data →
      splitOnceL ".git".data rest.data = some (name, r2) →
      canonicalize (.Git ("git@github.com:" ++ owner ++ "/" ++ rest) head)
        = some (.GitHub owner ⟨name⟩ head))
    ∧ (∀ (s : String) (head : Option String), '/' ∉ s.data →
      canonicalize (.Git ("git@github.com:" ++ s) head) = none)
    ∧ (∀ (owner rest : String) (head : Option String),
      '/' ∉ owner.data →
      splitOnceL ".git".data rest.data = none →
      canonicalize (.Git ("git@github.com:" ++ owner ++ "/" ++ rest) head)
        = none)
    ∧ (∀ (url : String) (head : Option String),
      stripPfx "git@github.com:".data url.data = none →
      canonicalize (.Git url head) = some (.Git url head))
    ∧ (∀ o n h, canonicalize (.GitHub o n h) = some (.GitHub o n h))
    ∧ (∀ n v, canonicalize (.Npm n v) = some (.Npm n v))
    ∧ (∀ n v, canonicalize (.CocoaPods n v) = some (.CocoaPods n v))
    ∧ (∀ g a v, canonicalize (.Maven g a v) = some (.Maven g a v)) := by
  refine ⟨?_, ?_, ?_, ?_, fun _ _ _ => rfl, fun _ _ => rfl,
    fun _ _ => rfl, fun _ _ _ => rfl⟩
  · intro owner rest head name r2 howner hsplit
    have hdata : ("git@github.com:" ++ owner ++ "/" ++ rest).data
        = "git@github.com:".data ++ (owner.data ++ '/' :: rest.data) := by
      simp only [strData_append, List.append_assoc]
      rfl
    rw [canonicalize_git_eq, hdata, stripPfx_append]
    show (match splitOnceL ['/'] (owner.data ++ '/' :: rest.data) with
      | some (o, s2) =>
        match splitOnceL ".git".data s2 with
        | some (nm, _) => some (Dependency.GitHub ⟨o⟩ ⟨nm⟩ head)
        | none => none
      | none => none) = some (.GitHub owner ⟨name⟩ head)
    rw [show splitOnceL ['/'] (owner.data ++ '/' :: rest.data)
        = some (owner.data, rest.data) from
      splitOnceL_first '/' [] owner.data rest.data howner]
    show (match splitOnceL ".git".data rest.data with
      | some (nm, _) => some (Dependency.GitHub owner ⟨nm⟩ head)
      | none => none) = some (.GitHub owner ⟨name⟩ head)
    rw [hsplit]
  · intro s head hs
    rw [canonicalize_git_eq,
      show ("git@github.com:" ++ s).data
        = "git@github.com:".data ++ s.data from rfl,
      stripPfx_append]
    show (match splitOnceL ['/'] s.data with
      | some (o, s2) =>
        match splitOnceL ".git".data s2 with
        | some (nm, _) => some (Dependency.GitHub ⟨o⟩ ⟨nm⟩ head)
        | none => none
      | none => none) = none
    rw [splitOnceL_none '/' [] s.data hs]
  · intro owner rest head howner hng
    have hdata : ("git@github.com:" ++ owner ++ "/" ++ rest).data
        = "git@github.com:".data ++ (owner.data ++ '/' :: rest.data) := by
      simp only [strData_append, List.append_assoc]
      rfl
    rw [canonicalize_git_eq, hdata, stripPfx_append]
    show (match splitOnceL ['/'] (owner.data ++ '/' :: rest.data) with
      | some (o, s2) =>
        match splitOnceL ".git".data s2 with
        | some (nm, _) => some (Dependency.GitHub ⟨o⟩ ⟨nm⟩ head)
        | none => none
      | none => none) = none
    rw [show splitOnceL ['/'] (owner.data ++ '/' :: rest.data)
        = some (owner.data, rest.data) from
      splitOnceL_first '/' [] owner.data rest.data howner]
    show (match splitOnceL ".git".data rest.data with
      | some (nm, _) => some (Dependency.GitHub owner ⟨nm⟩ head)
      | none => none) = none
    rw [hng]
  · intro url head hnone
    rw [canonicalize_git_eq, hnone]

theorem C3_witness :
    canonicalize (.Git "git@github.com:daangn/cjk-slug.git" (some "sha"))
      = some (.GitHub "daangn" "cjk-slug" (some "sha")) :=
  C3_amended.1 "daangn" "cjk-slug.git" (some "sha") "cjk-slug".data []
    (by decide) rfl

/-- Computation rule for the `git@` branch of `PackageDescriptor::try_from`. -/
theorem try_from_git (value ident range : String)
    (hostname other url commit : List Char)
    (hsr : split_range value = .ok (ident, range))
    (hpfx : isPfx "git@".data range.data = true)
    (hslash : splitOnceL ['/'] range.data = some (hostname, other))
    (hcommit : splitOnceL "#commit=".data (hostname ++ ':' :: other)
      = some (url, commit)) :
    PackageDescriptor.try_from value = some (.ok (.Git ident ⟨url⟩ ⟨commit⟩)) := by
  simp [PackageDescriptor.try_from, hsr, hpfx, hslash, hcommit]

/-- Claim C1 amended: the slash-form Yarn serialization
`git@github.com/owner/repo.git` is rewritten to the canonical
`git@github.com:owner/repo.git`, but the rewrite replaces the first `/`
anywhere in the range — not only after the host — so a colon-form
resolution is NOT left intact: its owner/repo separator `/` becomes `:`
and the two forms produce different identities. -/
theorem C1_amended (owner repo hash : String)
    (ho1 : '#' ∉ owner.data) (ho2 : '/' ∉ owner.data) (hr : '#' ∉ repo.data) :
    normalize_single_resolution
        ("pkg@git@github.com/" ++ owner ++ "/" ++ repo ++ ".git#commit=" ++ hash)
      = .ok (.Git ("git@github.com:" ++ owner ++ "/" ++ repo ++ ".git")
          (some hash))
    ∧ normalize_single_resolution
        ("pkg@git@github.com:" ++ owner ++ "/" ++ repo ++ ".git#commit=" ++ hash)
      = .ok (.Git ("git@github.com:" ++ owner ++ ":" ++ repo ++ ".git")
          (some hash)) := by
  constructor
  · have hsr : split_range
        ("pkg@git@github.com/" ++ owner ++ "/" ++ repo ++ ".git#commit=" ++ hash)
        = .ok ("pkg",
          "git@github.com/" ++ owner ++ "/" ++ repo ++ ".git#commit=" ++ hash) :=
      rfl
    have hpfx : isPfx "git@".data
        ("git@github.com/" ++ owner ++ "/" ++ repo ++ ".git#commit=" ++ hash).data
        = true := rfl
    have hslash : splitOnceL ['/']
        ("git@github.com/" ++ owner ++ "/" ++ repo ++ ".git#commit=" ++ hash).data
        = some ("git@github.com".data,
          (owner ++ "/" ++ repo ++ ".git#commit=" ++ hash).data) := rfl
    have harr : ("git@github.com".data
          ++ ':' :: (owner ++ "/" ++ repo ++ ".git#commit=" ++ hash).data)
        = ("git@github.com".data
            ++ ':' :: (owner.data ++ ('/' :: (repo.data ++ ".git".data))))
          ++ '#' :: ("commit=".data ++ hash.data) := by
      simp only [strData_append, List.append_assoc, List.cons_append,
        List.nil_append]
      try rfl
    have hurl : ("git@github.com:" ++ owner ++ "/" ++ repo ++ ".git").data
        = "git@github.com".data
          ++ ':' :: (owner.data ++ ('/' :: (repo.data ++ ".git".data))) := by
      simp only [strData_append, List.append_assoc, List.cons_append,
        List.nil_append]
      try rfl
    have hA : '#' ∉ ("git@github.com".data
        ++ ':' :: (owner.data ++ ('/' :: (repo.data ++ ".git".data)))) :=
      not_mem_append_chars _ _ _ (by decide)
        (not_mem_cons_chars _ _ _ (by decide)
          (not_mem_append_chars _ _ _ ho1
            (not_mem_cons_chars _ _ _ (by decide)
              (not_mem_append_chars _ _ _ hr (by decide)))))
    have hcommit : splitOnceL "#commit=".data
        ("git@github.com".data
          ++ ':' :: (owner ++ "/" ++ repo ++ ".git#commit=" ++ hash).data)
        = some (("git@github.com:" ++ owner ++ "/" ++ repo ++ ".git").data,
          hash.data) := by
      rw [harr, hurl]
      exact splitOnceL_first '#' "commit=".data _ hash.data hA
    have htf := try_from_git
      ("pkg@git@github.com/" ++ owner ++ "/" ++ repo ++ ".git#commit=" ++ hash)
      "pkg" ("git@github.com/" ++ owner ++ "/" ++ repo ++ ".git#commit=" ++ hash)
      "git@github.com".data (owner ++ "/" ++ repo ++ ".git#commit=" ++ hash).data
      ("git@github.com:" ++ owner ++ "/" ++ repo ++ ".git").data hash.data
      hsr hpfx hslash hcommit
    show normalizeFuel (1 + 1) _ = _
    rw [normalizeFuel_succ, htf]
  · have hsr : split_range
        ("pkg@git@github.com:" ++ owner ++ "/" ++ repo ++ ".git#commit=" ++ hash)
        = .ok ("pkg",
          "git@github.com:" ++ owner ++ "/" ++ repo ++ ".git#commit=" ++ hash) :=
      rfl
    have hpfx : isPfx "git@".data
        ("git@github.com:" ++ owner ++ "/" ++ repo ++ ".git#commit=" ++ hash).data
        = true := rfl
    have harr0 : ("git@github.com:" ++ owner ++ "/" ++ repo ++ ".git#commit=" ++ hash).data
        = ("git@github.com:".data ++ owner.data)
          ++ '/' :: ([] ++ (repo ++ ".git#commit=" ++ hash).data) := by
      simp only [strData_append, List.append_assoc, List.cons_append,
        List.nil_append]
      try rfl
    have hAslash : '/' ∉ ("git@github.com:".data ++ owner.data) :=
      not_mem_append_chars _ _ _ (by decide) ho2
    have hslash : splitOnceL ['/']
        ("git@github.com:" ++ owner ++ "/" ++ repo ++ ".git#commit=" ++ hash).data
        = some (("git@github.com:" ++ owner).data,
          (repo ++ ".git#commit=" ++ hash).data) := by
      rw [harr0,
        show ("git@github.com:" ++ owner).data
          = "git@github.com:".data ++ owner.data from rfl]
      exact splitOnceL_first '/' [] _ _ hAslash
    have harr2 : (("git@github.com:" ++ owner).data
          ++ ':' :: (repo ++ ".git#commit=" ++ hash).data)
        = ("git@github.com:".data
            ++ (owner.data ++ (':' :: (repo.data ++ ".git".data))))
          ++ '#' :: ("commit=".data ++ hash.data) := by
      simp only [strData_append, List.append_assoc, List.cons_append,
        List.nil_append]
      try rfl
    have hurl2 : ("git@github.com:" ++ owner ++ ":" ++ repo ++ ".git").data
        = "git@github.com:".data
          ++ (owner.data ++ (':' :: (repo.data ++ ".git".data))) := by
      simp only [strData_append, List.append_assoc, List.cons_append,
        List.nil_append]
      try rfl
    have hA2 : '#' ∉ ("git@github.com:".data
        ++ (owner.data ++ (':' :: (repo.data ++ ".git".data)))) :=
      not_mem_append_chars _ _ _ (by decide)
        (not_mem_append_chars _ _ _ ho1
          (not_mem_cons_chars _ _ _ (by decide)
            (not_mem_append_chars _ _ _ hr (by decide))))
    have hcommit : splitOnceL "#commit=".data
        (("git@github.com:" ++ owner).data
          ++ ':' :: (repo ++ ".git#commit=" ++ hash).data)
        = some (("git@github.com:" ++ owner ++ ":" ++ repo ++ ".git").data,
          hash.data) := by
      rw [harr2, hurl2]
      exact splitOnceL_first '#' "commit=".data _ hash.data hA2
    have htf := try_from_git
      ("pkg@git@github.com:" ++ owner ++ "/" ++ repo ++ ".git#commit=" ++ hash)
      "pkg" ("git@github.com:" ++ owner ++ "/" ++ repo ++ ".git#commit=" ++ hash)
      ("git@github.com:" ++ owner).data (repo ++ ".git#commit=" ++ hash).data
      ("git@github.com:" ++ owner ++ ":" ++ repo ++ ".git").data hash.data
      hsr hpfx hslash hcommit
    show normalizeFuel (1 + 1) _ = _
    rw [normalizeFuel_succ, htf]

theorem C1_witness :
    normalize_single_resolution "pkg@git@github.com/owner/repo.git#commit=deadbeef"
      = .ok (.Git "git@github.com:owner/repo.git" (some "deadbeef")) :=
  (C1_amended "owner" "repo" "deadbeef" (by decide) (by decide) (by decide)).1
